import Mathlib

/-!
Verification of the FSXPluginManager plugin system.

Definitions shallowly embed the TypeScript sources (`PluginManager.ts` and
its companion dispatch files): strings are Lean `String`/`List Char`,
JS `Map`s are association lists preserving insertion order, timestamps
are integers in milliseconds, and throwing code returns `Except`/flags.
Theorems settle the specification claims against these definitions.
-/

namespace FSX

/-! ## Block extractor (`extractBlockContent`, PluginManager.ts lines 129-159) -/

/-- First loop of `extractBlockContent`: scan forward from index `i` for the
first opening brace; `none` when the end of the text is reached first. -/
def findOpenIdx (cs : List Char) (i : Nat) : Option Nat :=
  if h : i < cs.length then
    if cs.getD i ' ' = '{' then some i else findOpenIdx cs (i + 1)
  else none
termination_by cs.length - i

/-- Second loop of `extractBlockContent`: from index `i` with current nesting
depth `depth`, return the index of the brace that closes the block, or
`cs.length` when the scan falls off the end of the text. -/
def scanClose (cs : List Char) (i : Nat) (depth : Nat) : Nat :=
  if h : i < cs.length then
    let c := cs.getD i ' '
    if c = '{' then scanClose cs (i + 1) (depth + 1)
    else if c = '}' then
      if depth = 1 then i else scanClose cs (i + 1) (depth - 1)
    else scanClose cs (i + 1) depth
  else i
termination_by cs.length - i

/-- The characters of `cs` with indices in `[a, b)` (JS `substring`). -/
def sliceChars (cs : List Char) (a b : Nat) : List Char :=
  (cs.drop a).take (b - a)

/-- JS `String.prototype.trim`: strip leading and trailing whitespace. -/
def trimChars (l : List Char) : List Char :=
  ((l.dropWhile Char.isWhitespace).reverse.dropWhile Char.isWhitespace).reverse

/-- `extractBlockContent(text, startIndex)` from PluginManager.ts: find the
first `{` at or after `startIndex`; if none, return `("", startIndex)`;
otherwise scan with nesting depth for the matching `}` and return the
trimmed text strictly between the braces together with the index one past
the point where the scan stopped. -/
def extractBlockContent (text : String) (startIndex : Nat) : String × Nat :=
  let cs := text.data
  match findOpenIdx cs startIndex with
  | none => ("", startIndex)
  | some j =>
      let stop := scanClose cs (j + 1) 1
      (String.mk (trimChars (sliceChars cs (j + 1) stop)), stop + 1)

/-! Specification-side notions for the block extractor, phrased with plain
character counting rather than the scanning loops. -/

/-- Number of opening braces among indices `[a, b)` of `cs`. -/
def opensIn (cs : List Char) (a b : Nat) : Nat :=
  (sliceChars cs a b).count '{'

/-- Number of closing braces among indices `[a, b)` of `cs`. -/
def closesIn (cs : List Char) (a b : Nat) : Nat :=
  (sliceChars cs a b).count '}'

/-- Index `k` closes the block whose body starts at `i0` (depth 1 there):
`cs k` is `}` and the body `[i0, k)` is internally balanced. -/
def StopsAt (cs : List Char) (i0 k : Nat) : Prop :=
  cs.getD k ' ' = '}' ∧ opensIn cs i0 k = closesIn cs i0 k

/-- `k` is the matching closer for a block body starting at `i0`: it stops the
block and no earlier index does. -/
def IsMatchingClose (cs : List Char) (i0 k : Nat) : Prop :=
  i0 ≤ k ∧ k < cs.length ∧ StopsAt cs i0 k ∧
    ∀ m, m < k → i0 ≤ m → ¬ StopsAt cs i0 m

instance (cs : List Char) (i0 k : Nat) : Decidable (StopsAt cs i0 k) := by
  unfold StopsAt
  infer_instance

instance (cs : List Char) (i0 k : Nat) : Decidable (IsMatchingClose cs i0 k) := by
  unfold IsMatchingClose
  infer_instance

/-- Depth-generalised stopping predicate: scanning from `i` with nesting depth
`d`, index `k` is where the depth first could reach zero. -/
def StopsAtD (cs : List Char) (i d k : Nat) : Prop :=
  cs.getD k ' ' = '}' ∧ d + opensIn cs i k = 1 + closesIn cs i k

theorem stopsAt_iff_stopsAtD (cs : List Char) (i k : Nat) :
    StopsAt cs i k ↔ StopsAtD cs i 1 k := by
  unfold StopsAt StopsAtD
  constructor <;> rintro ⟨h1, h2⟩ <;> exact ⟨h1, by omega⟩

theorem opensIn_self (cs : List Char) (i : Nat) : opensIn cs i i = 0 := by
  simp [opensIn, sliceChars]

theorem closesIn_self (cs : List Char) (i : Nat) : closesIn cs i i = 0 := by
  simp [closesIn, sliceChars]

theorem sliceChars_cons (cs : List Char) (i k : Nat) (hi : i < cs.length)
    (hk : i < k) : sliceChars cs i k = cs.getD i ' ' :: sliceChars cs (i + 1) k := by
  unfold sliceChars
  rw [List.drop_eq_getElem_cons hi]
  have h1 : k - i = (k - (i + 1)) + 1 := by omega
  rw [h1, List.take_succ_cons]
  simp [List.getD, List.getElem?_eq_getElem hi]

theorem opensIn_step (cs : List Char) (i k : Nat) (hi : i < cs.length)
    (hk : i < k) :
    opensIn cs i k = (if cs.getD i ' ' = '{' then 1 else 0) + opensIn cs (i + 1) k := by
  unfold opensIn
  rw [sliceChars_cons cs i k hi hk, List.count_cons]
  by_cases h : cs.getD i ' ' = '{' <;> simp [h] <;> omega

theorem closesIn_step (cs : List Char) (i k : Nat) (hi : i < cs.length)
    (hk : i < k) :
    closesIn cs i k = (if cs.getD i ' ' = '}' then 1 else 0) + closesIn cs (i + 1) k := by
  unfold closesIn
  rw [sliceChars_cons cs i k hi hk, List.count_cons]
  by_cases h : cs.getD i ' ' = '}' <;> simp [h] <;> omega

theorem stopsAtD_step_open (cs : List Char) (i d m : Nat) (hi : i < cs.length)
    (him : i < m) (hc : cs.getD i ' ' = '{') :
    StopsAtD cs i d m ↔ StopsAtD cs (i + 1) (d + 1) m := by
  have ho := opensIn_step cs i m hi him
  have hcl := closesIn_step cs i m hi him
  rw [hc, if_pos rfl] at ho
  rw [hc, if_neg (by decide)] at hcl
  unfold StopsAtD
  rw [ho, hcl]
  constructor <;> rintro ⟨h1, h2⟩ <;> exact ⟨h1, by omega⟩

theorem stopsAtD_step_close (cs : List Char) (i d m : Nat) (hi : i < cs.length)
    (him : i < m) (hc : cs.getD i ' ' = '}') (hd : 2 ≤ d) :
    StopsAtD cs i d m ↔ StopsAtD cs (i + 1) (d - 1) m := by
  have ho := opensIn_step cs i m hi him
  have hcl := closesIn_step cs i m hi him
  rw [hc, if_neg (by decide)] at ho
  rw [hc, if_pos rfl] at hcl
  unfold StopsAtD
  rw [ho, hcl]
  constructor <;> rintro ⟨h1, h2⟩ <;> exact ⟨h1, by omega⟩

theorem stopsAtD_step_other (cs : List Char) (i d m : Nat) (hi : i < cs.length)
    (him : i < m) (hc1 : ¬ cs.getD i ' ' = '{') (hc2 : ¬ cs.getD i ' ' = '}') :
    StopsAtD cs i d m ↔ StopsAtD cs (i + 1) d m := by
  have ho := opensIn_step cs i m hi him
  have hcl := closesIn_step cs i m hi him
  rw [if_neg hc1] at ho
  rw [if_neg hc2] at hcl
  unfold StopsAtD
  rw [ho, hcl]
  constructor <;> rintro ⟨h1, h2⟩ <;> exact ⟨h1, by omega⟩

theorem scanClose_found_aux :
    ∀ (n : Nat) (cs : List Char) (i d k : Nat), cs.length - i ≤ n → 1 ≤ d →
      i ≤ k → k < cs.length → StopsAtD cs i d k →
      (∀ m, i ≤ m → m < k → ¬ StopsAtD cs i d m) →
      scanClose cs i d = k := by
  intro n
  induction n with
  | zero =>
      intro cs i d k hn hd hik hk hstop hmin
      omega
  | succ n ih =>
      intro cs i d k hn hd hik hk hstop hmin
      have hi : i < cs.length := lt_of_le_of_lt hik hk
      rw [scanClose, dif_pos hi]
      by_cases hc1 : cs.getD i ' ' = '{'
      · rw [if_pos hc1]
        have hik' : i < k := by
          rcases Nat.eq_or_lt_of_le hik with he | hl
          · exact absurd (he ▸ hstop.1) (by rw [hc1]; decide)
          · exact hl
        refine ih cs (i + 1) (d + 1) k (by omega) (by omega) hik' hk
          ((stopsAtD_step_open cs i d k hi hik' hc1).mp hstop) ?_
        intro m hm1 hm2
        have := hmin m (by omega) hm2
        rw [stopsAtD_step_open cs i d m hi (by omega) hc1] at this
        exact this
      · rw [if_neg hc1]
        by_cases hc2 : cs.getD i ' ' = '}'
        · rw [if_pos hc2]
          by_cases hdone : d = 1
          · rw [if_pos hdone]
            by_contra hne
            have hik' : i < k := by
              rcases Nat.eq_or_lt_of_le hik with he | hl
              · exact absurd he hne
              · exact hl
            exact hmin i (Nat.le_refl i) hik'
              ⟨hc2, by rw [opensIn_self, closesIn_self]; omega⟩
          · rw [if_neg hdone]
            have hik' : i < k := by
              rcases Nat.eq_or_lt_of_le hik with he | hl
              · exfalso
                have := hstop.2
                rw [← he, opensIn_self, closesIn_self] at this
                omega
              · exact hl
            refine ih cs (i + 1) (d - 1) k (by omega) (by omega) hik' hk
              ((stopsAtD_step_close cs i d k hi hik' hc2 (by omega)).mp hstop) ?_
            intro m hm1 hm2
            have := hmin m (by omega) hm2
            rw [stopsAtD_step_close cs i d m hi (by omega) hc2 (by omega)] at this
            exact this
        · rw [if_neg hc2]
          have hik' : i < k := by
            rcases Nat.eq_or_lt_of_le hik with he | hl
            · exact absurd (he ▸ hstop.1) hc2
            · exact hl
          refine ih cs (i + 1) d k (by omega) hd hik' hk
            ((stopsAtD_step_other cs i d k hi hik' hc1 hc2).mp hstop) ?_
          intro m hm1 hm2
          have := hmin m (by omega) hm2
          rw [stopsAtD_step_other cs i d m hi (by omega) hc1 hc2] at this
          exact this

theorem scanClose_notfound_aux :
    ∀ (n : Nat) (cs : List Char) (i d : Nat), cs.length - i ≤ n → 1 ≤ d →
      i ≤ cs.length →
      (∀ m, i ≤ m → m < cs.length → ¬ StopsAtD cs i d m) →
      scanClose cs i d = cs.length := by
  intro n
  induction n with
  | zero =>
      intro cs i d hn hd hile hmin
      have : i = cs.length := by omega
      rw [scanClose, dif_neg (by omega)]
      exact this
  | succ n ih =>
      intro cs i d hn hd hile hmin
      by_cases hi : i < cs.length
      · rw [scanClose, dif_pos hi]
        by_cases hc1 : cs.getD i ' ' = '{'
        · rw [if_pos hc1]
          refine ih cs (i + 1) (d + 1) (by omega) (by omega) (by omega) ?_
          intro m hm1 hm2
          have := hmin m (by omega) hm2
          rw [stopsAtD_step_open cs i d m hi (by omega) hc1] at this
          exact this
        · rw [if_neg hc1]
          by_cases hc2 : cs.getD i ' ' = '}'
          · rw [if_pos hc2]
            by_cases hdone : d = 1
            · exfalso
              exact hmin i (Nat.le_refl i) hi
                ⟨hc2, by rw [opensIn_self, closesIn_self]; omega⟩
            · rw [if_neg hdone]
              refine ih cs (i + 1) (d - 1) (by omega) (by omega) (by omega) ?_
              intro m hm1 hm2
              have := hmin m (by omega) hm2
              rw [stopsAtD_step_close cs i d m hi (by omega) hc2 (by omega)] at this
              exact this
          · rw [if_neg hc2]
            refine ih cs (i + 1) d (by omega) hd (by omega) ?_
            intro m hm1 hm2
            have := hmin m (by omega) hm2
            rw [stopsAtD_step_other cs i d m hi (by omega) hc1 hc2] at this
            exact this
      · rw [scanClose, dif_neg hi]
        omega

theorem findOpenIdx_none_aux :
    ∀ (n : Nat) (cs : List Char) (i : Nat), cs.length - i ≤ n →
      (∀ m, i ≤ m → m < cs.length → cs.getD m ' ' ≠ '{') →
      findOpenIdx cs i = none := by
  intro n
  induction n with
  | zero =>
      intro cs i hn hno
      rw [findOpenIdx, dif_neg (by omega)]
  | succ n ih =>
      intro cs i hn hno
      by_cases hi : i < cs.length
      · rw [findOpenIdx, dif_pos hi, if_neg (hno i (Nat.le_refl i) hi)]
        exact ih cs (i + 1) (by omega) (fun m hm1 hm2 => hno m (by omega) hm2)
      · rw [findOpenIdx, dif_neg hi]

theorem findOpenIdx_some_aux :
    ∀ (n : Nat) (cs : List Char) (i j : Nat), cs.length - i ≤ n →
      i ≤ j → j < cs.length → cs.getD j ' ' = '{' →
      (∀ m, i ≤ m → m < j → cs.getD m ' ' ≠ '{') →
      findOpenIdx cs i = some j := by
  intro n
  induction n with
  | zero =>
      intro cs i j hn hij hj hopen hfirst
      omega
  | succ n ih =>
      intro cs i j hn hij hj hopen hfirst
      have hi : i < cs.length := lt_of_le_of_lt hij hj
      rcases Nat.eq_or_lt_of_le hij with he | hl
      · rw [findOpenIdx, dif_pos hi, if_pos (he ▸ hopen), he]
      · rw [findOpenIdx, dif_pos hi, if_neg (hfirst i (Nat.le_refl i) hl)]
        exact ih cs (i + 1) j (by omega) (by omega) hj hopen
          (fun m hm1 hm2 => hfirst m (by omega) hm2)

theorem extractBlockContent_no_open (text : String) (start : Nat)
    (hno : ∀ m, m < text.data.length → start ≤ m → text.data.getD m ' ' ≠ '{') :
    extractBlockContent text start = ("", start) := by
  have h : findOpenIdx text.data start = none :=
    findOpenIdx_none_aux text.data.length text.data start (by omega)
      (fun m h1 h2 => hno m h2 h1)
  simp [extractBlockContent, h]

theorem extractBlockContent_matched (text : String) (start j k : Nat)
    (hj : start ≤ j) (hjlen : j < text.data.length)
    (hopen : text.data.getD j ' ' = '{')
    (hfirst : ∀ m, m < j → start ≤ m → text.data.getD m ' ' ≠ '{')
    (hmatch : IsMatchingClose text.data (j + 1) k) :
    extractBlockContent text start =
      (String.mk (trimChars (sliceChars text.data (j + 1) k)), k + 1) := by
  have hf : findOpenIdx text.data start = some j :=
    findOpenIdx_some_aux text.data.length text.data start j (by omega) hj hjlen hopen
      (fun m h1 h2 => hfirst m h2 h1)
  obtain ⟨hik, hk, hstop, hmin⟩ := hmatch
  have hs : scanClose text.data (j + 1) 1 = k :=
    scanClose_found_aux text.data.length text.data (j + 1) 1 k (by omega) (by omega) hik hk
      ((stopsAt_iff_stopsAtD _ _ _).mp hstop)
      (fun m h1 h2 hc => hmin m h2 h1 ((stopsAt_iff_stopsAtD _ _ _).mpr hc))
  simp [extractBlockContent, hf, hs]

/-- **C10**: when an opening brace occurs at or after the start index but no
matching closing brace exists before end of input, `extractBlockContent` does
not fail: it returns the whitespace-trimmed remainder of the text after that
opening brace, and an end index equal to the text length plus one. -/
theorem claim_block_extractor_unbalanced (text : String) (start j : Nat)
    (hj : start ≤ j) (hjlen : j < text.data.length)
    (hopen : text.data.getD j ' ' = '{')
    (hfirst : ∀ m, m < j → start ≤ m → text.data.getD m ' ' ≠ '{')
    (hnoclose : ∀ k, k < text.data.length → j + 1 ≤ k → ¬ StopsAt text.data (j + 1) k) :
    extractBlockContent text start =
      (String.mk (trimChars (text.data.drop (j + 1))), text.data.length + 1) := by
  have hf : findOpenIdx text.data start = some j :=
    findOpenIdx_some_aux text.data.length text.data start j (by omega) hj hjlen hopen
      (fun m h1 h2 => hfirst m h2 h1)
  have hs : scanClose text.data (j + 1) 1 = text.data.length :=
    scanClose_notfound_aux text.data.length text.data (j + 1) 1 (by omega) (by omega)
      (by omega)
      (fun m h1 h2 hc => hnoclose m h2 h1 ((stopsAt_iff_stopsAtD _ _ _).mpr hc))
  have hslice : sliceChars text.data (j + 1) text.data.length = text.data.drop (j + 1) := by
    unfold sliceChars
    rw [List.take_of_length_le (by rw [List.length_drop])]
  simp only [extractBlockContent, hf, hs]
  rw [hslice]

theorem claim_block_extractor_unbalanced_witness :
    extractBlockContent "\x7bab" 0 =
      (String.mk (trimChars ("\x7bab".data.drop 1)), "\x7bab".data.length + 1) :=
  claim_block_extractor_unbalanced "\x7bab" 0 0 (by omega) (by decide) (by decide)
    (by decide) (by decide)

/-- **C5 (amended)**: if no opening brace occurs at or after the start index,
`extractBlockContent` returns an empty content and the unchanged start index;
for input whose braces are balanced it returns the whitespace-trimmed
substring strictly between the first opening brace and its matching closing
brace, together with the index just past that closing brace. -/
theorem claim_block_extractor (text : String) (start : Nat) :
    ((∀ m, m < text.data.length → start ≤ m → text.data.getD m ' ' ≠ '{') →
      extractBlockContent text start = ("", start)) ∧
    (∀ j k, start ≤ j → j < text.data.length → text.data.getD j ' ' = '{' →
      (∀ m, m < j → start ≤ m → text.data.getD m ' ' ≠ '{') →
      IsMatchingClose text.data (j + 1) k →
      extractBlockContent text start =
        (String.mk (trimChars (sliceChars text.data (j + 1) k)), k + 1)) :=
  ⟨extractBlockContent_no_open text start,
   fun j k h1 h2 h3 h4 h5 => extractBlockContent_matched text start j k h1 h2 h3 h4 h5⟩

theorem claim_block_extractor_witness :
    extractBlockContent "x\x7bab\x7dy" 0 =
      (String.mk (trimChars (sliceChars "x\x7bab\x7dy".data 2 4)), 5) ∧
    extractBlockContent "\x7d-" 1 = ("", 1) := by
  constructor
  · exact (claim_block_extractor "x\x7bab\x7dy" 0).2 1 4 (by omega) (by decide) (by decide)
      (by decide) (by decide)
  · exact (claim_block_extractor "\x7d-" 1).1 (by decide)

/-- **C5 counterexample**: on the source `"\x7b a \x7d"` the extractor returns the
trimmed body `"a"`, not the substring `" a "` lying strictly between the first
opening brace and its matching closing brace; so the claim as stated (without
whitespace trimming) is false. -/
theorem claim_block_extractor_counterexample :
    extractBlockContent "\x7b a \x7d" 0 = ("a", 5) ∧
    String.mk (sliceChars "\x7b a \x7d".data 1 4) = " a " ∧
    extractBlockContent "\x7b a \x7d" 0 ≠ (" a ", 5) := by
  have h := extractBlockContent_matched "\x7b a \x7d" 0 0 4 (by omega) (by decide) (by decide)
    (by decide) (by decide)
  refine ⟨?_, by decide, ?_⟩
  · rw [h]; decide
  · rw [h]; decide

/-! ## Scope validator (`ImportValidator.validate`, PluginManager.ts lines 66-231) -/

/-- JS `String.prototype.includes`, specialised to character lists. -/
def strContainsAux (p : List Char) : List Char → Bool
  | [] => p.isEmpty
  | c :: rest => p.isPrefixOf (c :: rest) || strContainsAux p rest

/-- `s.includes(pat)`: does `pat` occur as a contiguous substring of `s`? -/
def strContains (s pat : String) : Bool :=
  strContainsAux pat.data s.data

/-- The `MODULE_REQUIREMENTS` table: DSL feature text mapped to the scopes the
feature requires, in source order. -/
def MODULE_REQUIREMENTS : List (String × List String) := [
  ("buttons.create_button", ["buttons.use"]),
  ("buttons.create", ["buttons.use"]),
  ("on_click", ["buttons.use"]),
  ("interactions.create", ["buttons.use"]),
  ("db.set", ["db.write"]),
  ("db.use", ["db.read"]),
  ("db.send", ["messages.send"]),
  ("db.insert", ["db.write"]),
  ("db.update", ["db.write"]),
  ("db.delete", ["db.write"]),
  ("db.query", ["db.read"]),
  ("db.query_one", ["db.read"]),
  ("guilds.send", ["messages.send"]),
  ("guilds.create_channel", ["channels.create"]),
  ("guilds.fetch_channel", ["channels.read"]),
  ("guilds.fetch", ["channels.read"]),
  ("channel.delete", ["channels.delete"]),
  ("channel.send", ["messages.send"]),
  ("embeds.create", ["messages.send"]),
  ("fastlink.connect", ["voice.connect"]),
  ("users.get", ["messages.send"]),
  ("users.fetch", ["messages.send"]),
  ("user_has_permission", ["messages.send"]),
  ("discord.permissions.has", ["messages.send"]),
  ("on_member_join", ["messages.send"]),
  ("on_member_leave", ["messages.send"]),
  ("on_member_update", ["messages.send"]),
  ("on_message_delete", ["messages.send"]),
  ("on_voice_state_change", ["voice.connect"]),
  ("on_reaction", ["events.reaction"]),
  ("on_setting", ["messages.send"]),
  ("on_load", ["db.read", "db.write"]),
  ("emit.trigger", ["messages.send"]),
  ("cooldown.is_on", ["messages.send"]),
  ("cooldown.remaining", ["messages.send"]),
  ("cooldown.set", ["messages.send"]),
  ("time.now", ["messages.send"]),
  ("math.random_int", ["messages.send"]),
  ("event ", ["messages.send"]),
  ("logic", ["messages.send"])]

/-- Union of the scopes required by every feature whose text occurs in the
plugin source (the `requiredScopes` set in `ImportValidator.validate`). -/
def requiredScopesList (code : String) : List String :=
  ((MODULE_REQUIREMENTS.filter (fun fr => strContains code fr.1)).flatMap
    (fun fr => fr.2)).dedup

/-- The required scopes absent from the manifest's declared scope list. -/
def missingScopesOf (code : String) (scopes : List String) : List String :=
  (requiredScopesList code).filter (fun s => !(scopes.contains s))

/-- `feature.split(".")[0]`: the characters before the first dot. -/
def modulePrefixOf (s : String) : String :=
  String.mk (s.data.takeWhile (fun c => !(c == '.')))

/-- `feature.split(".").length > 1`: the feature text has a dot. -/
def hasDot (s : String) : Bool :=
  s.data.contains '.'

/-- The `usedModules` set: module prefix of every dotted feature occurring in
the source. -/
def usedModulesOf (code : String) : List String :=
  ((MODULE_REQUIREMENTS.filter (fun fr => strContains code fr.1)).filterMap
    (fun fr => if hasDot fr.1 then some (modulePrefixOf fr.1) else none)).dedup

/-- Declared imports whose module prefix (and full name) never shows up in the
used-module set. -/
def unusedImportsOf (code : String) (declaredImports : List String) : List String :=
  declaredImports.filter (fun d =>
    !((usedModulesOf code).contains (modulePrefixOf d)) &&
      !((usedModulesOf code).contains d))

structure ValidationResult where
  valid : Bool
  errors : List String
  warnings : List String
deriving DecidableEq

def joinComma (l : List String) : String :=
  String.intercalate ", " l

/-- `ImportValidator.validate(dslCode, declaredImports, scopes)`: fatal errors
for missing required scopes, warnings for unused imports, and
`valid = (no errors)`. -/
def validate (dslCode : String) (declaredImports scopes : List String) :
    ValidationResult :=
  let missing := missingScopesOf dslCode scopes
  let errors := if missing.isEmpty then [] else
    ["Missing required scopes in manifest: " ++ joinComma missing]
  let unused := unusedImportsOf dslCode declaredImports
  let warnings := if unused.isEmpty then [] else
    ["Unused use statements (can be removed): " ++ joinComma unused]
  { valid := errors.isEmpty, errors := errors, warnings := warnings }

theorem mem_missingScopesOf (code : String) (scopes : List String) (s : String) :
    s ∈ missingScopesOf code scopes ↔
      ((∃ fr ∈ MODULE_REQUIREMENTS, strContains code fr.1 = true ∧ s ∈ fr.2) ∧
        s ∉ scopes) := by
  unfold missingScopesOf requiredScopesList
  rw [List.mem_filter, List.mem_dedup, List.mem_flatMap]
  constructor
  · rintro ⟨⟨fr, hfr, hs⟩, hns⟩
    rw [List.mem_filter] at hfr
    refine ⟨⟨fr, hfr.1, hfr.2, hs⟩, ?_⟩
    intro hmem
    rw [Bool.not_eq_true', ← Bool.not_eq_true] at hns
    exact hns (by simpa [List.contains_iff_exists_mem_beq, beq_iff_eq] using hmem)
  · rintro ⟨⟨fr, hfr, hused, hs⟩, hns⟩
    refine ⟨⟨fr, List.mem_filter.mpr ⟨hfr, hused⟩, hs⟩, ?_⟩
    simp only [Bool.not_eq_true', ← Bool.not_eq_true]
    intro hcon
    exact hns (by simpa [List.contains_iff_exists_mem_beq, beq_iff_eq] using hcon)

theorem validate_valid_eq (code : String) (imports scopes : List String) :
    (validate code imports scopes).valid = (missingScopesOf code scopes).isEmpty := by
  unfold validate
  by_cases h : (missingScopesOf code scopes).isEmpty <;> simp [h]

/-- **C1**: for every plugin source, declared-import list and declared scope
set, `ImportValidator.validate` returns `valid = false` exactly when some
feature occurring in the source requires a scope absent from the declared
scope set; the missing-scope list contains exactly the required-but-undeclared
scopes (every missing one, no declared one); and the declared imports (whose
unused entries are reported as warnings) never influence `valid` or the
errors. -/
theorem claim_scope_validator (code : String) (imports imports2 scopes : List String) :
    ((validate code imports scopes).valid = false ↔
      ∃ fr ∈ MODULE_REQUIREMENTS, strContains code fr.1 = true ∧
        ∃ s ∈ fr.2, s ∉ scopes) ∧
    (∀ s, s ∈ missingScopesOf code scopes ↔
      ((∃ fr ∈ MODULE_REQUIREMENTS, strContains code fr.1 = true ∧ s ∈ fr.2) ∧
        s ∉ scopes)) ∧
    ((validate code imports scopes).errors = [] ↔ missingScopesOf code scopes = []) ∧
    (validate code imports scopes).valid = (validate code imports2 scopes).valid ∧
    (validate code imports scopes).errors = (validate code imports2 scopes).errors := by
  refine ⟨?_, fun s => mem_missingScopesOf code scopes s, ?_, rfl, rfl⟩
  · rw [validate_valid_eq]
    constructor
    · intro h
      have hne : missingScopesOf code scopes ≠ [] := by
        intro he
        rw [he] at h
        simp at h
      obtain ⟨s, hs⟩ := List.exists_mem_of_ne_nil _ hne
      rw [mem_missingScopesOf] at hs
      obtain ⟨⟨fr, h1, h2, h3⟩, h4⟩ := hs
      exact ⟨fr, h1, h2, s, h3, h4⟩
    · rintro ⟨fr, h1, h2, s, h3, h4⟩
      have hmem : s ∈ missingScopesOf code scopes :=
        (mem_missingScopesOf code scopes s).mpr ⟨⟨fr, h1, h2, h3⟩, h4⟩
      cases hmm : missingScopesOf code scopes with
      | nil => rw [hmm] at hmem; simp at hmem
      | cons a l => simp [hmm]
  · unfold validate
    by_cases h : (missingScopesOf code scopes).isEmpty
    · simp [h]
      simpa using h
    · simp [h]
      simpa using h

/-! ## Command dispatch (`PluginManager.handleCommand`, lines 1277-1396) -/

inductive PType
  | pstring
  | pint
  | pbool
deriving DecidableEq

structure ParameterDef where
  type : PType
  description : String
  required : Bool
deriving DecidableEq

/-- The `CommandHandler` record (PluginManager.ts lines 45-49).  The cooldown,
permission and denial-body fields exist on the interface; whether dispatch
consults them is settled by the theorems below. -/
structure CommandHandler where
  description : String
  usage : String
  parameters : List (String × ParameterDef)
  cooldown : Option Nat
  userPermissions : Option (List String)
  botPermissions : Option (List String)
  onCommand : String
  onCooldown : Option String
  onPermissionDeniedUser : Option String
  onPermissionDeniedBot : Option String
deriving DecidableEq

inductive JVal
  | vStr (s : String)
  | vInt (n : Int)
  | vBool (b : Bool)
deriving DecidableEq

/-- JS `parseInt` in radix 10: leading whitespace, optional sign, then the
longest digit run; `none` models `NaN`. -/
def parseIntJS (s : String) : Option Int :=
  let cs := s.data.dropWhile Char.isWhitespace
  let signed : Int × List Char :=
    match cs with
    | '-' :: rest => (-1, rest)
    | '+' :: rest => (1, rest)
    | _ => (1, cs)
  let digits := signed.2.takeWhile Char.isDigit
  if digits.isEmpty then none
  else some (signed.1 * (digits.foldl (fun acc c => acc * 10 + (c.toNat - 48)) 0 : Nat))

/-- JS `Array.prototype.join(" ")`. -/
def joinSpace : List String → String
  | [] => ""
  | [x] => x
  | x :: rest => x ++ " " ++ joinSpace rest

/-- ASCII lowercasing, standing in for JS `toLowerCase`. -/
def toLowerStr (s : String) : String :=
  String.mk (s.data.map Char.toLower)

/-- The positional-argument binding loop of `handleCommand`: each parameter,
in declaration order, consumes tokens from the remaining argument list.
String parameters are greedy; int parameters fall back to the raw token when
parsing fails; parameters left without a token are bound to `undefined`
(`none`). -/
def bindParams : List (String × ParameterDef) → List String →
    List (String × ParameterDef × Option JVal)
  | [], _ => []
  | (k, d) :: rest, [] => (k, d, none) :: bindParams rest []
  | (k, d) :: rest, a :: as =>
    match d.type with
    | PType.pstring =>
        (k, d, some (JVal.vStr (joinSpace (a :: as)))) :: bindParams rest []
    | PType.pint =>
        (k, d, some (match parseIntJS a with
          | some n => JVal.vInt n
          | none => JVal.vStr a)) :: bindParams rest as
    | PType.pbool =>
        (k, d, some (JVal.vBool (toLowerStr a == "true" || a == "1"))) ::
          bindParams rest as

/-- The missing-required-parameter test: `undefined`, `null` or `""`. -/
def isMissingVal : Option JVal → Bool
  | none => true
  | some (JVal.vStr s) => s == ""
  | some _ => false

inductive CmdOutcome
  | replyMissing (missing : List String) (msg : String)
  | executed (body : String) (params : List (String × Option JVal))
deriving DecidableEq

/-- The reply sent when required parameters are missing. -/
def missingMsg (missing : List String) (usage : String) : String :=
  ("❌ **Missing Required Parameters**\n\nThis command requires: " ++
    joinComma missing ++ "\n\n**Usage:** ") ++ usage

/-- The body of `handleCommand` once a handler has matched (lines 1323-1391):
bind positional arguments, reply with the usage message when a required
parameter is missing, otherwise execute the handler's `on_command` body.  No
cooldown or permission field of the handler is consulted here, mirroring the
source. -/
def missingParamsOf (h : CommandHandler) (args : List String) : List String :=
  ((bindParams h.parameters args).filter
    (fun e => e.2.1.required && isMissingVal e.2.2)).map (fun e => e.1)

def dispatchToHandler (h : CommandHandler) (args : List String) : CmdOutcome :=
  if (missingParamsOf h args).isEmpty then
    CmdOutcome.executed h.onCommand
      ((bindParams h.parameters args).map (fun e => (e.1, e.2.2)))
  else
    CmdOutcome.replyMissing (missingParamsOf h args)
      (missingMsg (missingParamsOf h args) h.usage)

/-- The plugin loop of `handleCommand` (lines 1320-1396): the first loaded
plugin whose command table contains the command name handles the event; the
manager's cooldown table and the current time are in scope (`this.cooldowns`,
`Date.now()`) but never read on this path. -/
def handleCommandLoop (plugins : List (String × List (String × CommandHandler)))
    (commandName : String) (args : List String)
    (cooldowns : List (String × Int)) (now : Int) : Option (String × CmdOutcome) :=
  match plugins with
  | [] => none
  | (itemId, cmds) :: rest =>
    match List.lookup commandName cmds with
    | some h => some (itemId, dispatchToHandler h args)
    | none => handleCommandLoop rest commandName args cooldowns now

/-- Number of required parameters of a declaration list. -/
def requiredCount (ps : List (String × ParameterDef)) : Nat :=
  (ps.filter (fun e => e.2.required)).length

theorem bindParams_nil_args (ps : List (String × ParameterDef)) :
    bindParams ps [] = ps.map (fun e => (e.1, e.2, (none : Option JVal))) := by
  induction ps with
  | nil => rfl
  | cons e rest ih => cases e with | mk k d => simp [bindParams, ih]

theorem exists_required_unbound (ps : List (String × ParameterDef))
    (args : List String) (h : args.length < requiredCount ps) :
    ∃ e ∈ bindParams ps args, e.2.1.required = true ∧ e.2.2 = none := by
  induction ps generalizing args with
  | nil => simp [requiredCount] at h
  | cons e rest ih =>
    cases e with | mk k d =>
    cases args with
    | nil =>
      by_cases hreq : d.required
      · exact ⟨(k, d, none), by simp [bindParams], hreq, rfl⟩
      · have h2 : ([] : List String).length < requiredCount rest := by
          simp only [requiredCount, List.filter] at h ⊢
          simp [hreq] at h
          simpa using h
        obtain ⟨e2, he2, hp⟩ := ih [] h2
        exact ⟨e2, by simp [bindParams, he2], hp⟩
    | cons a as =>
      have hcnt : requiredCount ((k, d) :: rest) ≤ requiredCount rest + 1 := by
        simp only [requiredCount, List.filter]
        by_cases hreq : d.required <;> simp [hreq]
      cases htype : d.type with
      | pstring =>
        have h2 : ([] : List String).length < requiredCount rest := by
          simp only [List.length] at h ⊢
          omega
        obtain ⟨e2, he2, hp⟩ := ih [] h2
        exact ⟨e2, by simp [bindParams, htype, he2], hp⟩
      | pint =>
        have h2 : as.length < requiredCount rest := by
          simp only [List.length] at h
          omega
        obtain ⟨e2, he2, hp⟩ := ih as h2
        exact ⟨e2, by simp [bindParams, htype, he2], hp⟩
      | pbool =>
        have h2 : as.length < requiredCount rest := by
          simp only [List.length] at h
          omega
        obtain ⟨e2, he2, hp⟩ := ih as h2
        exact ⟨e2, by simp [bindParams, htype, he2], hp⟩

/-- **C4**: a command invocation supplying fewer positional tokens than the
command's required parameters is answered with the missing-parameter reply,
whose text ends with the command's usage string, and the command's main body
is never executed. -/
theorem claim_missing_required_params (h : CommandHandler) (args : List String)
    (hlt : args.length < requiredCount h.parameters) :
    (∃ missing msg, dispatchToHandler h args = CmdOutcome.replyMissing missing msg ∧
      missing ≠ [] ∧ ∃ pre, msg = pre ++ h.usage) ∧
    ∀ body ps, dispatchToHandler h args ≠ CmdOutcome.executed body ps := by
  obtain ⟨e, hmem, hreq, hnone⟩ := exists_required_unbound h.parameters args hlt
  have hfil : e ∈ (bindParams h.parameters args).filter
      (fun e => e.2.1.required && isMissingVal e.2.2) := by
    rw [List.mem_filter]
    exact ⟨hmem, by rw [hreq, hnone]; rfl⟩
  have hne : missingParamsOf h args ≠ [] := by
    intro hemp
    unfold missingParamsOf at hemp
    rw [List.map_eq_nil_iff] at hemp
    rw [hemp] at hfil
    simp at hfil
  have hnotempty : (missingParamsOf h args).isEmpty = false := by
    cases hc : missingParamsOf h args with
    | nil => exact absurd hc hne
    | cons x xs => rfl
  have hres : dispatchToHandler h args =
      CmdOutcome.replyMissing (missingParamsOf h args)
        (missingMsg (missingParamsOf h args) h.usage) := by
    unfold dispatchToHandler
    rw [hnotempty]
    simp
  refine ⟨⟨missingParamsOf h args, missingMsg (missingParamsOf h args) h.usage,
    hres, hne, ⟨_, rfl⟩⟩, ?_⟩
  intro body ps hcon
  rw [hres] at hcon
  simp at hcon

theorem claim_missing_required_params_witness :
    (∃ missing msg,
      dispatchToHandler
        { description := "greet a user", usage := "?greet username",
          parameters := [("username",
            { type := PType.pstring, description := "who", required := true })],
          cooldown := none, userPermissions := none, botPermissions := none,
          onCommand := "MAIN", onCooldown := none,
          onPermissionDeniedUser := none, onPermissionDeniedBot := none } [] =
        CmdOutcome.replyMissing missing msg ∧
      missing ≠ [] ∧ ∃ pre, msg = pre ++ "?greet username") ∧
    ∀ body ps,
      dispatchToHandler
        { description := "greet a user", usage := "?greet username",
          parameters := [("username",
            { type := PType.pstring, description := "who", required := true })],
          cooldown := none, userPermissions := none, botPermissions := none,
          onCommand := "MAIN", onCooldown := none,
          onPermissionDeniedUser := none, onPermissionDeniedBot := none } [] ≠
        CmdOutcome.executed body ps :=
  claim_missing_required_params _ [] (by decide)

/-- A command handler declaring a cooldown, both permission requirements and
all three denial bodies — the configuration the C2 ordering claim is about. -/
def fullyGuardedHandler : CommandHandler :=
  { description := "guarded", usage := "?guarded",
    parameters := [],
    cooldown := some 5,
    userPermissions := some ["ADMINISTRATOR"],
    botPermissions := some ["SEND_MESSAGES"],
    onCommand := "MAIN_BODY",
    onCooldown := some "COOLDOWN_DENIED_BODY",
    onPermissionDeniedUser := some "USER_DENIED_BODY",
    onPermissionDeniedBot := some "BOT_DENIED_BODY" }

/-- **C2** (evaluating the code at the failing input): `handleCommand` runs
the matched handler's main body for every cooldown-table state and every
current time — even when the handler declares a cooldown, user and bot
permission requirements, and all three denial bodies, and even when the
cooldown table holds an unexpired entry for this command and user.  No
bot-permission, user-permission or cooldown check is performed and no denial
body is ever executed. -/
theorem claim_command_check_ordering_bug :
    (∀ (cooldowns : List (String × Int)) (now : Int),
      handleCommandLoop [("p1", [("guarded", fullyGuardedHandler)])] "guarded" []
          cooldowns now =
        some ("p1", CmdOutcome.executed "MAIN_BODY" [])) ∧
    handleCommandLoop [("p1", [("guarded", fullyGuardedHandler)])] "guarded" []
        [("g:p1:guarded:user", 9999999)] 0 =
      some ("p1", CmdOutcome.executed "MAIN_BODY" []) := by
  constructor
  · intro cooldowns now
    rfl
  · rfl

/-! ## Button dispatch (`PluginManager.handleButton`, lines 1398-1410) -/

/-- The `ButtonHandler` record (line 52): parsed cooldown seconds, execute
body, and the (never populated) cooldown-denied body. -/
structure ButtonHandler where
  cooldown : Option Nat
  execute : String
  onCooldown : Option String
deriving DecidableEq

/-- `handleButton`: the first loaded plugin whose button-handler table
contains the clicked custom id executes that handler's `execute` body.  The
manager's cooldown table and the clock are in scope but — mirroring the
source — never consulted, and nothing is written to the cooldown table. -/
def handleButton (plugins : List (String × List (String × ButtonHandler)))
    (customId : String) (cooldowns : List (String × Int)) (now : Int) :
    Option (String × String) :=
  match plugins with
  | [] => none
  | (itemId, handlers) :: rest =>
    match List.lookup customId handlers with
    | some h => some (itemId, h.execute)
    | none => handleButton rest customId cooldowns now

/-- A button handler with a five-second cooldown and a declared
cooldown-denied body. -/
def cooldownButton : ButtonHandler :=
  { cooldown := some 5, execute := "EXECUTE_BODY",
    onCooldown := some "COOLDOWN_DENIED_BODY" }

/-- **C3** (evaluating the code at the failing input): for a button handler
declaring a 5-second cooldown, `handleButton` runs the execute body for every
cooldown-table state and time — in particular on a second click by the same
user one second after the first (modelled by an unexpired cooldown entry).
The cooldown-denied body never runs and the cooldown table is never updated;
only the first matching plugin's handler runs (the one part of the claim the
code does satisfy). -/
theorem claim_button_cooldown_bug :
    (∀ (cooldowns : List (String × Int)) (now : Int),
      handleButton [("p1", [("btn", cooldownButton)])] "btn" cooldowns now =
        some ("p1", "EXECUTE_BODY")) ∧
    handleButton [("p1", [("btn", cooldownButton)])] "btn"
        [("g:p1:btn:user", 5000)] 1000 = some ("p1", "EXECUTE_BODY") ∧
    (∀ h2 : ButtonHandler,
      handleButton [("p1", [("btn", cooldownButton)]), ("p2", [("btn", h2)])] "btn"
          [] 0 =
        some ("p1", "EXECUTE_BODY")) := by
  exact ⟨fun cooldowns now => rfl, rfl, fun h2 => rfl⟩

/-! ## Reaction dispatch (`setupEventListeners`, lines 2026-2083) -/

/-- The cooldown key built in the reaction listener: note the third component
is the fixed text `reaction_handler`, not a per-handler identifier. -/
def reactionKey (guildId itemId userId : String) : String :=
  guildId ++ ":" ++ itemId ++ ":reaction_handler:" ++ userId

/-- A parsed `on_reaction` handler (`parseReactionHandlers`): cooldown seconds
when declared, and the extracted `on_cooldown` and `execute` bodies (empty
string when the sub-block is absent). -/
structure ReactionHandler where
  cooldown : Option Nat
  onCooldown : String
  execute : String
deriving DecidableEq

inductive RePath
  | cooldownBody (code : String)
  | mainBody (code : String)
deriving DecidableEq

/-- JS `Map.get(k)` with a default (`|| 0` in the source). -/
def lookupD {β : Type} (l : List (String × β)) (k : String) (dflt : β) : β :=
  match List.lookup k l with
  | some v => v
  | none => dflt

/-- JS `Map.set(k, v)`: overwrite the existing entry or append a new one. -/
def setAssoc {β : Type} (l : List (String × β)) (k : String) (v : β) :
    List (String × β) :=
  match l with
  | [] => [(k, v)]
  | (k2, v2) :: rest =>
      if k2 == k then (k2, v) :: rest else (k2, v2) :: setAssoc rest k v

/-- The inner handler loop of the reaction listener for one plugin: returns
the `(itemId, index)` pairs the loop reached, the bodies it ran (cooldown
path or execute path), and the updated cooldown table. -/
def runReactionHandlers (guildId userId itemId : String) :
    List ReactionHandler → Nat → List (String × Int) → Int →
    List (String × Nat) × List (String × Nat × RePath) × List (String × Int)
  | [], _, cd, _ => ([], [], cd)
  | h :: rest, idx, cd, now =>
    if h.cooldown.getD 0 ≠ 0 then
      if now < lookupD cd (reactionKey guildId itemId userId) 0 then
        let evs := if h.onCooldown == "" then []
          else [(itemId, idx, RePath.cooldownBody h.onCooldown)]
        let r := runReactionHandlers guildId userId itemId rest (idx + 1) cd now
        ((itemId, idx) :: r.1, evs ++ r.2.1, r.2.2)
      else
        let cd1 := setAssoc cd (reactionKey guildId itemId userId)
          (now + (h.cooldown.getD 0 : Int) * 1000)
        let evs := if h.execute == "" then []
          else [(itemId, idx, RePath.mainBody h.execute)]
        let r := runReactionHandlers guildId userId itemId rest (idx + 1) cd1 now
        ((itemId, idx) :: r.1, evs ++ r.2.1, r.2.2)
    else
      let evs := if h.execute == "" then []
        else [(itemId, idx, RePath.mainBody h.execute)]
      let r := runReactionHandlers guildId userId itemId rest (idx + 1) cd now
      ((itemId, idx) :: r.1, evs ++ r.2.1, r.2.2)

/-- The outer plugin loop of the `messageReactionAdd` listener: every loaded
plugin's reaction handlers are processed in order, threading the cooldown
table; there is no early exit. -/
def dispatchReaction (plugins : List (String × List ReactionHandler))
    (guildId userId : String) (cd : List (String × Int)) (now : Int) :
    List (String × Nat) × List (String × Nat × RePath) × List (String × Int) :=
  match plugins with
  | [] => ([], [], cd)
  | (itemId, hs) :: rest =>
    let r1 := runReactionHandlers guildId userId itemId hs 0 cd now
    let r2 := dispatchReaction rest guildId userId r1.2.2 now
    (r1.1 ++ r2.1, r1.2.1 ++ r2.2.1, r2.2.2)

/-- Every `(plugin, handler-index)` pair, in declaration order: what a
dispatch that never exits early must reach. -/
def allHandlerPairs (plugins : List (String × List ReactionHandler)) :
    List (String × Nat) :=
  plugins.flatMap (fun p => (List.range p.2.length).map (fun i => (p.1, i)))

theorem runReactionHandlers_reaches_all (guildId userId itemId : String)
    (hs : List ReactionHandler) :
    ∀ (idx : Nat) (cd : List (String × Int)) (now : Int),
      (runReactionHandlers guildId userId itemId hs idx cd now).1 =
        (List.range' idx hs.length).map (fun i => (itemId, i)) := by
  induction hs with
  | nil => intro idx cd now; rfl
  | cons h rest ih =>
    intro idx cd now
    simp only [List.length_cons, List.range'_succ, List.map_cons]
    by_cases hc : h.cooldown.getD 0 ≠ 0
    · by_cases hon : now < lookupD cd (reactionKey guildId itemId userId) 0
      · simp [runReactionHandlers, hc, hon, ih]
      · simp [runReactionHandlers, hc, hon, ih]
    · simp [runReactionHandlers, hc, ih]

theorem dispatchReaction_reaches_all (plugins : List (String × List ReactionHandler))
    (g u : String) :
    ∀ (cd : List (String × Int)) (now : Int),
      (dispatchReaction plugins g u cd now).1 = allHandlerPairs plugins := by
  induction plugins with
  | nil => intro cd now; rfl
  | cons p rest ih =>
    intro cd now
    cases p with | mk itemId hs =>
    simp [dispatchReaction, allHandlerPairs, runReactionHandlers_reaches_all, ih,
      List.range_eq_range']

theorem no_colon_extract :
    ∀ (l1 l1' r r' : List Char), (∀ c ∈ l1, c ≠ ':') → (∀ c ∈ l1', c ≠ ':') →
      l1 ++ ':' :: r = l1' ++ ':' :: r' → l1 = l1' := by
  intro l1
  induction l1 with
  | nil =>
    intro l1' r r' h1 h1' he
    cases l1' with
    | nil => rfl
    | cons b t =>
      exfalso
      simp only [List.nil_append, List.cons_append, List.cons.injEq] at he
      exact h1' b (by simp) he.1.symm
  | cons a t ih =>
    intro l1' r r' h1 h1' he
    cases l1' with
    | nil =>
      exfalso
      simp only [List.nil_append, List.cons_append, List.cons.injEq] at he
      exact h1 a (by simp) he.1
    | cons b t' =>
      simp only [List.cons_append, List.cons.injEq] at he
      rw [he.1, ih t' r r' (fun c hc => h1 c (by simp [hc]))
        (fun c hc => h1' c (by simp [hc])) he.2]

theorem reactionKey_data (g it u : String) :
    (reactionKey g it u).data =
      g.data ++ ':' :: (it.data ++ ':' :: ("reaction_handler:".data ++ u.data)) := by
  simp [reactionKey]

theorem reactionKey_inj_item (g u it it2 : String)
    (h1 : ∀ c ∈ it.data, c ≠ ':') (h2 : ∀ c ∈ it2.data, c ≠ ':')
    (hne : it ≠ it2) : reactionKey g it u ≠ reactionKey g it2 u := by
  intro he
  have hd : (reactionKey g it u).data = (reactionKey g it2 u).data := by rw [he]
  rw [reactionKey_data, reactionKey_data] at hd
  have hd2 := List.append_cancel_left hd
  have hd3 : it.data ++ ':' :: ("reaction_handler:".data ++ u.data) =
      it2.data ++ ':' :: ("reaction_handler:".data ++ u.data) := by
    exact (List.cons.injEq _ _ _ _ ▸ hd2).2
  have hdata := no_colon_extract it.data it2.data _ _ h1 h2 hd3
  apply hne
  cases it with | mk d1 =>
  cases it2 with | mk d2 =>
  exact congrArg String.mk (by simpa using hdata)

theorem runReactionHandlers_all_denied (g u itemId : String)
    (hs : List ReactionHandler) :
    ∀ (idx : Nat) (cd : List (String × Int)) (now : Int),
      (∀ h ∈ hs, h.cooldown.getD 0 ≠ 0) →
      now < lookupD cd (reactionKey g itemId u) 0 →
      ∀ ev ∈ (runReactionHandlers g u itemId hs idx cd now).2.1,
        ∀ c, ev.2.2 ≠ RePath.mainBody c := by
  induction hs with
  | nil =>
    intro idx cd now hall hon ev hev
    simp [runReactionHandlers] at hev
  | cons h rest ih =>
    intro idx cd now hall hon ev hev c
    have hc : h.cooldown.getD 0 ≠ 0 := hall h (by simp)
    simp only [runReactionHandlers, if_pos hc, if_pos hon, List.mem_append] at hev
    rcases hev with hev | hev
    · by_cases hoc : h.onCooldown == ""
      · rw [if_pos hoc] at hev
        simp at hev
      · rw [if_neg hoc] at hev
        simp only [List.mem_singleton] at hev
        rw [hev]
        simp
    · exact ih (idx + 1) cd now (fun h2 hh2 => hall h2 (by simp [hh2])) hon ev hev c

/-- **C9 (amended)**: on a reaction-add event every loaded plugin's reaction
handlers are all reached (dispatch is not first-match-wins and has no early
exit); but reaction cooldowns are NOT per-handler: all reaction handlers of
one plugin share the single cooldown key `guild:plugin:reaction_handler:user`,
which is distinct across plugins (for colon-free ids) — so one unexpired
entry under that key denies the execute path to every cooldown-bearing
handler of the plugin. -/
theorem claim_reaction_dispatch (plugins : List (String × List ReactionHandler))
    (g u : String) (cd : List (String × Int)) (now : Int) :
    ((dispatchReaction plugins g u cd now).1 = allHandlerPairs plugins) ∧
    (∀ it it2, (∀ c ∈ it.data, c ≠ ':') → (∀ c ∈ it2.data, c ≠ ':') → it ≠ it2 →
      reactionKey g it u ≠ reactionKey g it2 u) ∧
    (∀ itemId hs idx, (∀ h ∈ hs, h.cooldown.getD 0 ≠ 0) →
      now < lookupD cd (reactionKey g itemId u) 0 →
      ∀ ev ∈ (runReactionHandlers g u itemId hs idx cd now).2.1,
        ∀ c, ev.2.2 ≠ RePath.mainBody c) :=
  ⟨dispatchReaction_reaches_all plugins g u cd now,
   fun it it2 h1 h2 hne => reactionKey_inj_item g u it it2 h1 h2 hne,
   fun itemId hs idx hall hon =>
     runReactionHandlers_all_denied g u itemId hs idx cd now hall hon⟩

theorem claim_reaction_dispatch_witness :
    ((dispatchReaction
        [("p1", [{ cooldown := some 5, onCooldown := "CD0", execute := "A" }]),
         ("p2", [{ cooldown := none, onCooldown := "", execute := "B" }])]
        "g" "u" [(reactionKey "g" "p1" "u", 9000)] 1000).1 =
      allHandlerPairs
        [("p1", [{ cooldown := some 5, onCooldown := "CD0", execute := "A" }]),
         ("p2", [{ cooldown := none, onCooldown := "", execute := "B" }])]) ∧
    reactionKey "g" "p1" "u" ≠ reactionKey "g" "p2" "u" ∧
    (("p1", 0, RePath.cooldownBody "CD0") : String × Nat × RePath).2.2 ≠
      RePath.mainBody "A" := by
  have h := claim_reaction_dispatch
    [("p1", [{ cooldown := some 5, onCooldown := "CD0", execute := "A" }]),
     ("p2", [{ cooldown := none, onCooldown := "", execute := "B" }])]
    "g" "u" [(reactionKey "g" "p1" "u", 9000)] 1000
  refine ⟨h.1, h.2.1 "p1" "p2" (by decide) (by decide) (by decide), ?_⟩
  refine h.2.2 "p1" [{ cooldown := some 5, onCooldown := "CD0", execute := "A" }] 0
    (by intro h2 hh2; simp at hh2; rw [hh2]; decide) (by decide)
    ("p1", 0, RePath.cooldownBody "CD0") (by decide) "A"

/-- **C9 counterexample**: a single plugin with two cooldown-bearing reaction
handlers, fresh cooldown table, one reaction event: handler 0 executes and
sets the shared key, so handler 1 — in the same event — takes the
cooldown-denied path instead of its execute path.  Under the claimed
per-handler namespaces handler 1 would have executed `"B"`. -/
theorem claim_reaction_dispatch_counterexample :
    (dispatchReaction
        [("p1", [{ cooldown := some 5, onCooldown := "CD0", execute := "A" },
                 { cooldown := some 5, onCooldown := "CD1", execute := "B" }])]
        "g" "u" [] 1000).2.1 =
      [("p1", 0, RePath.mainBody "A"), ("p1", 1, RePath.cooldownBody "CD1")] ∧
    ("p1", 1, RePath.mainBody "B") ∉
      (dispatchReaction
        [("p1", [{ cooldown := some 5, onCooldown := "CD0", execute := "A" },
                 { cooldown := some 5, onCooldown := "CD1", execute := "B" }])]
        "g" "u" [] 1000).2.1 := by
  constructor
  · decide
  · decide

/-! ## Manager state: install / toggle / uninstall
(`installPluginFromMarketplace` lines 521-559, `togglePlugin` lines 1995-2002,
`uninstallPlugin` lines 1984-1991, `loadInstalledPlugin` lines 566-581) -/

/-- One `InstalledPlugin` entry, reduced to the fields the invariant is
about. -/
structure Inst where
  guildId : String
  itemId : String
  enabled : Bool
deriving DecidableEq

/-- The manager's in-memory tables: the installed-plugins cache (per-guild
lists, flattened with their guild key) and the loaded-plugins table reduced
to its key set. -/
structure MgrState where
  installed : List Inst
  loaded : List (String × String)
deriving DecidableEq

def keyOf (p : Inst) : String × String :=
  (p.guildId, p.itemId)

def keyMatch (g it : String) (p : Inst) : Bool :=
  p.guildId == g && p.itemId == it

/-- `loadedPlugins.get(g).set(it, plugin)` on the key set: insert if absent. -/
def addLoaded (l : List (String × String)) (k : String × String) :
    List (String × String) :=
  if k ∈ l then l else l ++ [k]

/-- `find(...)` followed by `plugin.enabled = b`: update the first matching
entry in place. -/
def setEnabledFirst (g it : String) (b : Bool) : List Inst → List Inst
  | [] => []
  | p :: rest =>
    if keyMatch g it p then { p with enabled := b } :: rest
    else p :: setEnabledFirst g it b rest

/-- `findIndex` + `splice(idx, 1)`: drop the first matching entry. -/
def removeFirst (g it : String) : List Inst → List Inst
  | [] => []
  | p :: rest => if keyMatch g it p then rest else p :: removeFirst g it rest

/-- `installPluginFromMarketplace` on the in-memory state.  `ok` is true when
the marketplace item exists, is approved, downloads and passes validation —
on any failure the state is untouched.  A plugin already installed for the
guild is also refused.  On success the entry is pushed with `enabled: true`
and `loadInstalledPlugin` registers the loaded entry. -/
def installPlugin (ok : Bool) (g it : String) (s : MgrState) : MgrState :=
  if !ok then s
  else if s.installed.any (keyMatch g it) then s
  else { installed := s.installed ++ [{ guildId := g, itemId := it, enabled := true }],
         loaded := addLoaded s.loaded (g, it) }

/-- `togglePlugin`: flip the enabled flag of the first matching installed
entry; load on enable, drop the loaded entry on disable; no change when the
plugin is not installed. -/
def togglePlugin (g it : String) (b : Bool) (s : MgrState) : MgrState :=
  if s.installed.any (keyMatch g it) then
    { installed := setEnabledFirst g it b s.installed,
      loaded := if b then addLoaded s.loaded (g, it)
        else s.loaded.filter (fun k => !(k == (g, it))) }
  else s

/-- `uninstallPlugin`: splice out the first matching installed entry and
delete the loaded entry; no change when not found. -/
def uninstallPlugin (g it : String) (s : MgrState) : MgrState :=
  if s.installed.any (keyMatch g it) then
    { installed := removeFirst g it s.installed,
      loaded := s.loaded.filter (fun k => !(k == (g, it))) }
  else s

inductive MgrOp
  | install (ok : Bool) (g it : String)
  | toggle (g it : String) (b : Bool)
  | uninstall (g it : String)

def applyOp : MgrOp → MgrState → MgrState
  | MgrOp.install ok g it, s => installPlugin ok g it s
  | MgrOp.toggle g it b, s => togglePlugin g it b s
  | MgrOp.uninstall g it, s => uninstallPlugin g it s

/-- The invariant of claim C7: a loaded entry exists for (g, it) iff an
installed entry for (g, it) exists with `enabled = true`. -/
def Inv (s : MgrState) : Prop :=
  ∀ g it, (g, it) ∈ s.loaded ↔
    ∃ p ∈ s.installed, p.guildId = g ∧ p.itemId = it ∧ p.enabled = true

/-- Well-formedness: the (guild, item) keys of the installed cache are
pairwise distinct — guaranteed by the install-time duplicate check. -/
def Wf (s : MgrState) : Prop :=
  (s.installed.map keyOf).Nodup

theorem keyMatch_iff (g it : String) (p : Inst) :
    keyMatch g it p = true ↔ p.guildId = g ∧ p.itemId = it := by
  simp [keyMatch]

theorem any_keyMatch_iff (g it : String) (l : List Inst) :
    l.any (keyMatch g it) = true ↔ ∃ p ∈ l, p.guildId = g ∧ p.itemId = it := by
  rw [List.any_eq_true]
  constructor
  · rintro ⟨p, hp, hm⟩
    exact ⟨p, hp, (keyMatch_iff g it p).mp hm⟩
  · rintro ⟨p, hp, hm⟩
    exact ⟨p, hp, (keyMatch_iff g it p).mpr hm⟩

theorem mem_addLoaded (l : List (String × String)) (k a : String × String) :
    a ∈ addLoaded l k ↔ a ∈ l ∨ a = k := by
  unfold addLoaded
  by_cases hk : k ∈ l
  · rw [if_pos hk]
    constructor
    · exact fun h => Or.inl h
    · rintro (h | h)
      · exact h
      · rw [h]; exact hk
  · rw [if_neg hk]
    simp

theorem setEnabledFirst_map_keyOf (g it : String) (b : Bool) (l : List Inst) :
    (setEnabledFirst g it b l).map keyOf = l.map keyOf := by
  induction l with
  | nil => rfl
  | cons p rest ih =>
    by_cases hm : keyMatch g it p
    · simp [setEnabledFirst, hm, keyOf]
    · simp [setEnabledFirst, hm, ih]

theorem exists_setEnabledFirst_other (g it g2 it2 : String) (b : Bool)
    (l : List Inst) (hne : ¬(g2 = g ∧ it2 = it)) :
    (∃ p ∈ setEnabledFirst g it b l,
        p.guildId = g2 ∧ p.itemId = it2 ∧ p.enabled = true) ↔
      (∃ p ∈ l, p.guildId = g2 ∧ p.itemId = it2 ∧ p.enabled = true) := by
  induction l with
  | nil => simp [setEnabledFirst]
  | cons p rest ih =>
    by_cases hm : keyMatch g it p
    · obtain ⟨hg, hit⟩ := (keyMatch_iff g it p).mp hm
      simp only [setEnabledFirst, if_pos hm]
      constructor
      · rintro ⟨q, hq, hP⟩
        rw [List.mem_cons] at hq
        rcases hq with hq | hq
        · exfalso
          rw [hq] at hP
          exact hne ⟨by rw [← hP.1]; exact hg.symm ▸ rfl, by rw [← hP.2.1]; exact hit.symm ▸ rfl⟩
        · exact ⟨q, by simp [hq], hP⟩
      · rintro ⟨q, hq, hP⟩
        rw [List.mem_cons] at hq
        rcases hq with hq | hq
        · exfalso
          rw [hq] at hP
          exact hne ⟨by rw [← hP.1, hg], by rw [← hP.2.1, hit]⟩
        · exact ⟨q, by simp [hq], hP⟩
    · simp only [setEnabledFirst, if_neg hm]
      constructor
      · rintro ⟨q, hq, hP⟩
        rw [List.mem_cons] at hq
        rcases hq with hq | hq
        · exact ⟨q, by simp [hq], hP⟩
        · obtain ⟨q2, hq2, hP2⟩ := (ih).mp ⟨q, hq, hP⟩
          exact ⟨q2, by simp [hq2], hP2⟩
      · rintro ⟨q, hq, hP⟩
        rw [List.mem_cons] at hq
        rcases hq with hq | hq
        · exact ⟨q, by simp [hq], hP⟩
        · obtain ⟨q2, hq2, hP2⟩ := (ih).mpr ⟨q, hq, hP⟩
          exact ⟨q2, by simp [hq2], hP2⟩

theorem exists_setEnabledFirst_self (g it : String) (b : Bool) (l : List Inst)
    (hfound : l.any (keyMatch g it) = true)
    (hnodup : (l.map keyOf).Nodup) :
    (∃ p ∈ setEnabledFirst g it b l,
        p.guildId = g ∧ p.itemId = it ∧ p.enabled = true) ↔ b = true := by
  induction l with
  | nil => simp at hfound
  | cons p rest ih =>
    rw [List.map_cons, List.nodup_cons] at hnodup
    by_cases hm : keyMatch g it p
    · obtain ⟨hg, hit⟩ := (keyMatch_iff g it p).mp hm
      simp only [setEnabledFirst, if_pos hm]
      constructor
      · rintro ⟨q, hq, hP⟩
        rw [List.mem_cons] at hq
        rcases hq with hq | hq
        · rw [hq] at hP
          exact hP.2.2
        · exfalso
          apply hnodup.1
          rw [List.mem_map]
          refine ⟨q, hq, ?_⟩
          unfold keyOf
          rw [hP.1, hP.2.1, hg, hit]
      · intro hb
        exact ⟨{ p with enabled := b }, by simp, hg, hit, hb⟩
    · have hfound2 : rest.any (keyMatch g it) = true := by
        simp only [List.any_cons, hm, Bool.false_or] at hfound
        exact hfound
      simp only [setEnabledFirst, if_neg hm]
      constructor
      · rintro ⟨q, hq, hP⟩
        rw [List.mem_cons] at hq
        rcases hq with hq | hq
        · exfalso
          apply hm
          rw [hq] at hP
          exact (keyMatch_iff g it p).mpr ⟨hP.1, hP.2.1⟩
        · exact (ih hfound2 hnodup.2).mp ⟨q, hq, hP⟩
      · intro hb
        obtain ⟨q, hq, hP⟩ := (ih hfound2 hnodup.2).mpr hb
        exact ⟨q, by simp [hq], hP⟩

theorem removeFirst_sublist (g it : String) (l : List Inst) :
    List.Sublist (removeFirst g it l) l := by
  induction l with
  | nil => simp [removeFirst]
  | cons p rest ih =>
    by_cases hm : keyMatch g it p
    · simp only [removeFirst, if_pos hm]
      exact (List.sublist_cons_self p rest)
    · simp only [removeFirst, if_neg hm]
      exact ih.cons₂ p

theorem exists_removeFirst_other (g it g2 it2 : String) (l : List Inst)
    (hne : ¬(g2 = g ∧ it2 = it)) :
    (∃ p ∈ removeFirst g it l,
        p.guildId = g2 ∧ p.itemId = it2 ∧ p.enabled = true) ↔
      (∃ p ∈ l, p.guildId = g2 ∧ p.itemId = it2 ∧ p.enabled = true) := by
  induction l with
  | nil => simp [removeFirst]
  | cons p rest ih =>
    by_cases hm : keyMatch g it p
    · obtain ⟨hg, hit⟩ := (keyMatch_iff g it p).mp hm
      simp only [removeFirst, if_pos hm]
      constructor
      · rintro ⟨q, hq, hP⟩
        exact ⟨q, by simp [hq], hP⟩
      · rintro ⟨q, hq, hP⟩
        rw [List.mem_cons] at hq
        rcases hq with hq | hq
        · exfalso
          rw [hq] at hP
          exact hne ⟨by rw [← hP.1, hg], by rw [← hP.2.1, hit]⟩
        · exact ⟨q, hq, hP⟩
    · simp only [removeFirst, if_neg hm]
      constructor
      · rintro ⟨q, hq, hP⟩
        rw [List.mem_cons] at hq
        rcases hq with hq | hq
        · exact ⟨q, by simp [hq], hP⟩
        · obtain ⟨q2, hq2, hP2⟩ := ih.mp ⟨q, hq, hP⟩
          exact ⟨q2, by simp [hq2], hP2⟩
      · rintro ⟨q, hq, hP⟩
        rw [List.mem_cons] at hq
        rcases hq with hq | hq
        · exact ⟨q, by simp [hq], hP⟩
        · obtain ⟨q2, hq2, hP2⟩ := ih.mpr ⟨q, hq, hP⟩
          exact ⟨q2, by simp [hq2], hP2⟩

theorem removeFirst_no_key (g it : String) (l : List Inst)
    (hnodup : (l.map keyOf).Nodup) :
    ∀ p ∈ removeFirst g it l, ¬(p.guildId = g ∧ p.itemId = it) := by
  induction l with
  | nil => simp [removeFirst]
  | cons p rest ih =>
    rw [List.map_cons, List.nodup_cons] at hnodup
    by_cases hm : keyMatch g it p
    · obtain ⟨hg, hit⟩ := (keyMatch_iff g it p).mp hm
      simp only [removeFirst, if_pos hm]
      intro q hq hP
      apply hnodup.1
      rw [List.mem_map]
      refine ⟨q, hq, ?_⟩
      unfold keyOf
      rw [hP.1, hP.2, hg, hit]
    · simp only [removeFirst, if_neg hm]
      intro q hq hP
      rw [List.mem_cons] at hq
      rcases hq with hq | hq
      · apply hm
        rw [hq] at hP
        exact (keyMatch_iff g it p).mpr hP
      · exact ih hnodup.2 q hq hP

/-- **C7**: the loaded-iff-installed-and-enabled invariant, together with
key uniqueness of the installed cache, is preserved by every install,
enable/disable toggle, and uninstall operation on the manager state. -/
theorem claim_loaded_iff_enabled (op : MgrOp) (s : MgrState)
    (hwf : Wf s) (hinv : Inv s) :
    Wf (applyOp op s) ∧ Inv (applyOp op s) := by
  cases op with
  | install ok g it =>
    simp only [applyOp, installPlugin]
    by_cases hok : !ok
    · rw [if_pos hok]
      exact ⟨hwf, hinv⟩
    · rw [if_neg hok]
      by_cases hex : s.installed.any (keyMatch g it) = true
      · rw [if_pos hex]
        exact ⟨hwf, hinv⟩
      · rw [if_neg hex]
        have hnot : ¬∃ p ∈ s.installed, p.guildId = g ∧ p.itemId = it := by
          rw [← any_keyMatch_iff]
          simpa using hex
        constructor
        · unfold Wf at hwf ⊢
          simp only [List.map_append, List.map_cons, List.map_nil]
          rw [List.nodup_append]
          refine ⟨hwf, List.nodup_singleton _, ?_⟩
          intro a ha hb
          simp only [List.mem_singleton] at hb
          rw [List.mem_map] at ha
          obtain ⟨p, hp, hkey⟩ := ha
          apply hnot
          refine ⟨p, hp, ?_⟩
          have hpk : keyOf p = (g, it) := by rw [hkey, hb]; rfl
          unfold keyOf at hpk
          rw [Prod.mk.injEq] at hpk
          exact hpk
        · intro g2 it2
          simp only
          rw [mem_addLoaded]
          constructor
          · rintro (h | h)
            · obtain ⟨p, hp, hP⟩ := (hinv g2 it2).mp h
              exact ⟨p, by simp [hp], hP⟩
            · rw [Prod.mk.injEq] at h
              refine ⟨{ guildId := g, itemId := it, enabled := true }, by simp, ?_⟩
              simp [h.1, h.2]
          · rintro ⟨p, hp, hP⟩
            rw [List.mem_append, List.mem_singleton] at hp
            rcases hp with hp | hp
            · exact Or.inl ((hinv g2 it2).mpr ⟨p, hp, hP⟩)
            · right
              rw [hp] at hP
              rw [Prod.mk.injEq]
              exact ⟨hP.1.symm, hP.2.1.symm⟩
  | toggle g it b =>
    simp only [applyOp, togglePlugin]
    by_cases hex : s.installed.any (keyMatch g it) = true
    · rw [if_pos hex]
      constructor
      · unfold Wf at hwf ⊢
        simp only [setEnabledFirst_map_keyOf]
        exact hwf
      · intro g2 it2
        simp only
        by_cases heq : g2 = g ∧ it2 = it
        · obtain ⟨hg2, hit2⟩ := heq
          subst hg2
          subst hit2
          rw [exists_setEnabledFirst_self g2 it2 b s.installed hex hwf]
          cases b with
          | true =>
            simp only [if_pos]
            rw [mem_addLoaded]
            simp
          | false =>
            rw [if_neg (by simp), List.mem_filter]
            simp
        · rw [exists_setEnabledFirst_other g it g2 it2 b s.installed heq]
          have hne2 : ((g2, it2) : String × String) ≠ (g, it) := by
            rw [Ne, Prod.mk.injEq]
            exact heq
          cases b with
          | true =>
            simp only [if_pos]
            rw [mem_addLoaded]
            constructor
            · rintro (h | h)
              · exact (hinv g2 it2).mp h
              · exact absurd h hne2
            · intro h
              exact Or.inl ((hinv g2 it2).mpr h)
          | false =>
            rw [if_neg (by simp), List.mem_filter]
            constructor
            · rintro ⟨h, _⟩
              exact (hinv g2 it2).mp h
            · intro h
              refine ⟨(hinv g2 it2).mpr h, ?_⟩
              simpa using hne2
    · rw [if_neg hex]
      exact ⟨hwf, hinv⟩
  | uninstall g it =>
    simp only [applyOp, uninstallPlugin]
    by_cases hex : s.installed.any (keyMatch g it) = true
    · rw [if_pos hex]
      constructor
      · unfold Wf at hwf ⊢
        exact ((removeFirst_sublist g it s.installed).map keyOf).nodup hwf
      · intro g2 it2
        simp only
        by_cases heq : g2 = g ∧ it2 = it
        · obtain ⟨hg2, hit2⟩ := heq
          subst hg2
          subst hit2
          rw [List.mem_filter]
          constructor
          · rintro ⟨_, hbad⟩
            simp at hbad
          · rintro ⟨p, hp, hP⟩
            exact absurd ⟨hP.1, hP.2.1⟩ (removeFirst_no_key g2 it2 s.installed hwf p hp)
        · rw [exists_removeFirst_other g it g2 it2 s.installed heq]
          have hne2 : ((g2, it2) : String × String) ≠ (g, it) := by
            rw [Ne, Prod.mk.injEq]
            exact heq
          rw [List.mem_filter]
          constructor
          · rintro ⟨h, _⟩
            exact (hinv g2 it2).mp h
          · intro h
            refine ⟨(hinv g2 it2).mpr h, ?_⟩
            simpa using hne2
    · rw [if_neg hex]
      exact ⟨hwf, hinv⟩

theorem claim_loaded_iff_enabled_witness :
    Wf (applyOp (MgrOp.install true "guild1" "pluginA")
        { installed := [], loaded := [] }) ∧
    Inv (applyOp (MgrOp.install true "guild1" "pluginA")
        { installed := [], loaded := [] }) :=
  claim_loaded_iff_enabled (MgrOp.install true "guild1" "pluginA")
    { installed := [], loaded := [] } (by simp [Wf]) (by simp [Inv])

/-! ## Outbound HTTP limiter (`createSafeHttpClient` lines 1772-1864,
`checkHttpRateLimits` lines 1866-1890, `logHttpRequest` lines 1892-1904) -/

structure HttpLimits where
  maxRequestsPerMinute : Nat
  maxRequestsPerHour : Nat
deriving DecidableEq

/-- One entry of the per-(guild, plugin) request log, reduced to the fields
rate accounting reads. -/
structure HttpLog where
  time : Int
  success : Bool
deriving DecidableEq

def httpKey (g p : String) : String :=
  g ++ ":" ++ p

/-- `checkHttpRateLimits`: prune the log window to the last hour, throw when
the last-minute or last-hour counts reach their limits, otherwise store the
pruned window. -/
def checkHttpRateLimits (st : List (String × List HttpLog)) (lim : HttpLimits)
    (now : Int) (g p : String) : Except String (List (String × List HttpLog)) :=
  if (((lookupD st (httpKey g p) []).filter
        (fun l => decide (l.time > now - 60 * 60 * 1000))).filter
        (fun l => decide (l.time > now - 60 * 1000))).length ≥
      lim.maxRequestsPerMinute then
    Except.error "Rate limit exceeded: requests per minute"
  else if ((lookupD st (httpKey g p) []).filter
        (fun l => decide (l.time > now - 60 * 60 * 1000))).length ≥
      lim.maxRequestsPerHour then
    Except.error "Rate limit exceeded: requests per hour"
  else Except.ok (setAssoc st (httpKey g p)
    ((lookupD st (httpKey g p) []).filter
      (fun l => decide (l.time > now - 60 * 60 * 1000))))

/-- `logHttpRequest`: append an entry to the key's log list. -/
def logHttpRequest (st : List (String × List HttpLog)) (g p : String)
    (entry : HttpLog) : List (String × List HttpLog) :=
  setAssoc st (httpKey g p) (lookupD st (httpKey g p) [] ++ [entry])

/-- `url.startsWith("http")`. -/
def startsWithHttp (url : String) : Bool :=
  "http".data.isPrefixOf url.data

/-- JS `toUpperCase`, ASCII. -/
def toUpperStr (s : String) : String :=
  String.mk (s.data.map Char.toUpper)

/-- Result of one `makeRequest` call: whether the underlying network call was
made, the surfaced error if any, and the updated log state. -/
structure HttpResult where
  networkCallMade : Bool
  error : Option String
  state : List (String × List HttpLog)
deriving DecidableEq

/-- `makeRequest` from `createSafeHttpClient`: reject non-http URLs, then
blocked domains, then rate limits — all before the network call; every
rejection is logged as a failed request (the catch block logs and rethrows).
`hostname` stands for `new URL(url).hostname` (parsed by the platform);
`netOk` stands for the outcome of the `axios` call itself. -/
def makeRequest (st : List (String × List HttpLog)) (blocked : List String)
    (lim : HttpLimits) (now : Int) (g p method url hostname : String)
    (netOk : Bool) : HttpResult :=
  if !(startsWithHttp url) then
    { networkCallMade := false,
      error := some ("HTTP " ++ method ++ " failed: Invalid URL - must start with http/https"),
      state := logHttpRequest st g p { time := now, success := false } }
  else if blocked.contains hostname then
    { networkCallMade := false,
      error := some ("HTTP " ++ method ++ " failed: Domain " ++ hostname ++
        " is blocked due to abuse"),
      state := logHttpRequest st g p { time := now, success := false } }
  else
    match checkHttpRateLimits st lim now g p with
    | Except.error msg =>
        { networkCallMade := false,
          error := some ("HTTP " ++ method ++ " failed: " ++ msg),
          state := logHttpRequest st g p { time := now, success := false } }
    | Except.ok st1 =>
        if !(["GET", "POST", "PUT", "DELETE"].contains (toUpperStr method)) then
          { networkCallMade := false,
            error := some ("HTTP " ++ method ++ " failed: Unsupported HTTP method: " ++
              method),
            state := logHttpRequest st1 g p { time := now, success := false } }
        else if netOk then
          { networkCallMade := true, error := none,
            state := logHttpRequest st1 g p { time := now, success := true } }
        else
          { networkCallMade := true,
            error := some ("HTTP " ++ method ++ " failed: network error"),
            state := logHttpRequest st1 g p { time := now, success := false } }

theorem minute_filter_eq (logs : List HttpLog) (now : Int) :
    (logs.filter (fun l => decide (l.time > now - 60 * 60 * 1000))).filter
        (fun l => decide (l.time > now - 60 * 1000)) =
      logs.filter (fun l => decide (l.time > now - 60 * 1000)) := by
  rw [List.filter_filter]
  apply List.filter_congr
  intro a ha
  by_cases h1 : a.time > now - 60 * 1000 <;>
    by_cases h2 : a.time > now - 60 * 60 * 1000 <;>
      simp [h1, h2] <;> omega

/-- **C6**: a request whose last-60-seconds window already holds at least the
per-minute limit of logged requests is rejected by throwing before the
network call is made; and a request to a blocked domain is always rejected
before the network call, regardless of remaining quota. -/
theorem claim_http_limiter (st : List (String × List HttpLog))
    (blocked : List String) (lim : HttpLimits) (now : Int)
    (g p method url hostname : String) (netOk : Bool) :
    (((lookupD st (httpKey g p) []).filter
        (fun l => decide (l.time > now - 60 * 1000))).length ≥
          lim.maxRequestsPerMinute →
      (makeRequest st blocked lim now g p method url hostname netOk).networkCallMade
          = false ∧
      (makeRequest st blocked lim now g p method url hostname netOk).error.isSome
          = true) ∧
    (blocked.contains hostname = true →
      (makeRequest st blocked lim now g p method url hostname netOk).networkCallMade
          = false ∧
      (makeRequest st blocked lim now g p method url hostname netOk).error.isSome
          = true) := by
  constructor
  · intro hcount
    unfold makeRequest
    by_cases hblocked : hostname ∈ blocked
    · by_cases hurl : startsWithHttp url <;> simp [hurl, hblocked]
    · have hrate : checkHttpRateLimits st lim now g p =
          Except.error "Rate limit exceeded: requests per minute" := by
        unfold checkHttpRateLimits
        rw [minute_filter_eq, if_pos hcount]
      by_cases hurl : startsWithHttp url <;> simp [hurl, hblocked, hrate]
  · intro hblocked
    have hmem : hostname ∈ blocked := by
      simpa [List.contains_iff_exists_mem_beq, beq_iff_eq] using hblocked
    unfold makeRequest
    by_cases hurl : startsWithHttp url <;> simp [hurl, hmem]

theorem claim_http_limiter_witness :
    ((makeRequest
        [(httpKey "g" "p", [{ time := 999000, success := true },
                            { time := 998000, success := true }])]
        [] { maxRequestsPerMinute := 2, maxRequestsPerHour := 200 } 1000000
        "g" "p" "GET" "https://example.com/a" "example.com" true).networkCallMade
        = false ∧
      (makeRequest
        [(httpKey "g" "p", [{ time := 999000, success := true },
                            { time := 998000, success := true }])]
        [] { maxRequestsPerMinute := 2, maxRequestsPerHour := 200 } 1000000
        "g" "p" "GET" "https://example.com/a" "example.com" true).error.isSome
        = true) ∧
    ((makeRequest [] ["evil.com"]
        { maxRequestsPerMinute := 30, maxRequestsPerHour := 200 } 0
        "g" "p" "GET" "https://evil.com/x" "evil.com" true).networkCallMade
        = false ∧
      (makeRequest [] ["evil.com"]
        { maxRequestsPerMinute := 30, maxRequestsPerHour := 200 } 0
        "g" "p" "GET" "https://evil.com/x" "evil.com" true).error.isSome = true) :=
  ⟨(claim_http_limiter
      [(httpKey "g" "p", [{ time := 999000, success := true },
                          { time := 998000, success := true }])]
      [] { maxRequestsPerMinute := 2, maxRequestsPerHour := 200 } 1000000
      "g" "p" "GET" "https://example.com/a" "example.com" true).1 (by decide),
   (claim_http_limiter [] ["evil.com"]
      { maxRequestsPerMinute := 30, maxRequestsPerHour := 200 } 0
      "g" "p" "GET" "https://evil.com/x" "evil.com" true).2 (by decide)⟩

/-! ## Trigger facility (`emit.trigger` lines 1130-1154,
`handleFunctionTrigger` lines 1529-1601, `handleCustomEventTrigger` lines
1493-1527, `handleCommandTrigger` lines 1603-1652) -/

def isWsChar (c : Char) : Bool :=
  c.isWhitespace

/-- JS regex `\w` (ASCII). -/
def isWordChar (c : Char) : Bool :=
  c.isAlphanum || c == '_'

/-- Consume a literal prefix, or fail. -/
def dropPre (pat l : List Char) : Option (List Char) :=
  if pat.isPrefixOf l then some (l.drop pat.length) else none

/-- `handleFunctionTrigger` interpolates the trigger's function name into its
lookup pattern (`new RegExp` at line 1543), so the name's characters act as
regex atoms, not literal text: a dot matches any character except a line
terminator, while a word character matches only itself.  This consumes the
name's atoms against `l`.  (Names are modelled over word characters and
interior dots — the class the dotted trigger syntax produces; quantifier or
group metacharacters in a name, which would reshape or break the regex, are
outside the model.) -/
def matchAtoms : List Char → List Char → Option (List Char)
  | [], l => some l
  | _ :: _, [] => none
  | a :: as, c :: cs =>
    if a == '.' then
      if c == '\n' || c == '\r' || c == '\u2028' || c == '\u2029' then none
      else matchAtoms as cs
    else if a == c then matchAtoms as cs
    else none

/-- Match the header regex
`fun\s+NAME\s*\(([^)]*)\)(?:\s*->\s*\w+)?\s*\{` at the start of `l`, with
`NAME` the interpolated function name (see `matchAtoms`); on success return
the captured parameter text and the suffix of `l` beginning at the opening
brace. -/
def matchFunFrom (name : List Char) (l : List Char) :
    Option (List Char × List Char) :=
  match dropPre ['f', 'u', 'n'] l with
  | none => none
  | some l1 =>
    match l1 with
    | [] => none
    | c :: _ =>
      if !(isWsChar c) then none
      else
        match matchAtoms name (l1.dropWhile isWsChar) with
        | none => none
        | some l3 =>
          match l3.dropWhile isWsChar with
          | '(' :: l5 =>
            match l5.dropWhile (fun c2 => !(c2 == ')')) with
            | ')' :: l7 =>
              let params := l5.takeWhile (fun c2 => !(c2 == ')'))
              match l7.dropWhile isWsChar with
              | '-' :: '>' :: l9 =>
                let w := (l9.dropWhile isWsChar).takeWhile isWordChar
                if w.isEmpty then none
                else
                  match ((l9.dropWhile isWsChar).dropWhile isWordChar).dropWhile
                      isWsChar with
                  | '{' :: rest => some (params, '{' :: rest)
                  | _ => none
              | '{' :: rest => some (params, '{' :: rest)
              | _ => none
            | _ => none
          | _ => none

/-- `regex.exec`: the leftmost match of the function-header regex. -/
def findFunMatch (name : List Char) (l : List Char) :
    Option (List Char × List Char) :=
  match matchFunFrom name l with
  | some r => some r
  | none =>
    match l with
    | [] => none
    | _ :: rest => findFunMatch name rest

/-- JS `split(",")`. -/
def splitOnCommaAux : List Char → List Char → List (List Char)
  | [], acc => [acc.reverse]
  | c :: rest, acc =>
    if c == ',' then acc.reverse :: splitOnCommaAux rest []
    else splitOnCommaAux rest (c :: acc)

def splitOnComma (l : List Char) : List (List Char) :=
  splitOnCommaAux l []

/-- Parameter-name extraction of `handleFunctionTrigger`: split the captured
parameter text on commas and keep the trimmed part before the colon of each
piece; an all-whitespace parameter text yields no names. -/
def paramNamesOf (params : List Char) : List String :=
  if trimChars params == [] then []
  else (splitOnComma params).map (fun piece =>
    String.mk (trimChars ((trimChars piece).takeWhile (fun c => !(c == ':')))))

/-- `JSON.stringify` on the plain-text values carried by trigger data. -/
def jsonStr (v : String) : String :=
  "\"" ++ v ++ "\""

inductive LogicKind
  | onListen
  | onTrigger
deriving DecidableEq

structure LogicHandler where
  kind : LogicKind
  pattern : String
  action : String
deriving DecidableEq

/-- A loaded plugin, reduced to the fields the trigger facility reads. -/
structure LPlug where
  dslCode : String
  commands : List (String × CommandHandler)
  customEvents : List (String × List String)
  logicHandlers : List LogicHandler
deriving DecidableEq

/-- `handleFunctionTrigger`: missing guild table or missing plugin log and
return (no throw); an undefined function name throws a not-found failure;
otherwise the function body is extracted and executed with matching `data`
fields bound as leading declarations (each bound parameter is prepended, so
the last-bound appears first).  The `ok` payload lists the bodies handed to
`executeCode`. -/
def handleFunctionTrigger (loaded : List (String × List (String × LPlug)))
    (guildId itemId functionName : String) (data : List (String × String)) :
    Except String (List String) :=
  match List.lookup guildId loaded with
  | none => Except.ok []
  | some plugins =>
    match List.lookup itemId plugins with
    | none => Except.ok []
    | some plugin =>
      match findFunMatch functionName.data plugin.dslCode.data with
      | none => Except.error ("Function " ++ functionName ++ " not found")
      | some (params, suffix) =>
        Except.ok [(paramNamesOf params).foldl (fun acc pn =>
          match List.lookup pn data with
          | some v => "const " ++ pn ++ " = " ++ jsonStr v ++ "\n" ++ acc
          | none => acc) (extractBlockContent (String.mk suffix) 0).1]

/-- `handleCustomEventTrigger`: run every handler registered for the custom
event name, then every `on_trigger` logic handler with that name. -/
def handleCustomEventTrigger (loaded : List (String × List (String × LPlug)))
    (guildId itemId eventName : String) : Except String (List String) :=
  match List.lookup guildId loaded with
  | none => Except.ok []
  | some plugins =>
    match List.lookup itemId plugins with
    | none => Except.ok []
    | some plugin =>
      Except.ok
        ((match List.lookup eventName plugin.customEvents with
          | some hs => hs
          | none => []) ++
         (plugin.logicHandlers.filter (fun h =>
            h.kind == LogicKind.onTrigger && h.pattern == eventName)).map
           (fun h => h.action))

/-- `handleCommandTrigger`: execute the named command's main body directly
(no prefix parsing, no cooldown or permission checks); unknown command names
throw. -/
def handleCommandTrigger (loaded : List (String × List (String × LPlug)))
    (guildId itemId commandName : String) : Except String (List String) :=
  match List.lookup guildId loaded with
  | none => Except.ok []
  | some plugins =>
    match List.lookup itemId plugins with
    | none => Except.ok []
    | some plugin =>
      match List.lookup commandName plugin.commands with
      | none => Except.error ("Command " ++ commandName ++ " not found")
      | some h => Except.ok [h.onCommand]

/-- The `(.+)$` part of the trigger regex: nonempty and free of line
terminators. -/
def validTriggerRest (l : List Char) : Bool :=
  !(l.isEmpty) && l.all (fun c =>
    !(c == '\n') && !(c == '\r') && !(c == '\u2028') && !(c == '\u2029'))

/-- `emit.trigger(target, data)`: parse `^(event|fun|command):(.+)$` and
dispatch; a malformed target throws.  Failures from the dispatched handler
propagate to the caller — the `switch` has no catch. -/
def emitTrigger (loaded : List (String × List (String × LPlug)))
    (guildId itemId : String) (target : String) (data : List (String × String)) :
    Except String (List String) :=
  if "event:".data.isPrefixOf target.data ∧ validTriggerRest (target.data.drop 6) then
    handleCustomEventTrigger loaded guildId itemId (String.mk (target.data.drop 6))
  else if "fun:".data.isPrefixOf target.data ∧ validTriggerRest (target.data.drop 4) then
    handleFunctionTrigger loaded guildId itemId (String.mk (target.data.drop 4)) data
  else if "command:".data.isPrefixOf target.data ∧
      validTriggerRest (target.data.drop 8) then
    handleCommandTrigger loaded guildId itemId (String.mk (target.data.drop 8))
  else
    Except.error "Invalid trigger format. Use: event:name, fun:name, or command:name"

/-- **C8 (amended)**: a `fun:`-kind trigger whose function name consists only
of word characters — so that the interpolated lookup regex matches exactly
the literal name — and which names a function not defined in the emitting
plugin's source (no match of the function-header regex) makes the trigger
facility raise a not-found failure that propagates to the caller, and no
handler body is executed.  For names with regex metacharacters the lookup
can match a different function (see the counterexample), so the word-char
restriction is necessary. -/
theorem claim_function_trigger_not_found
    (loaded : List (String × List (String × LPlug)))
    (g it fname : String) (data : List (String × String))
    (plugins : List (String × LPlug)) (plugin : LPlug)
    (hg : List.lookup g loaded = some plugins)
    (hp : List.lookup it plugins = some plugin)
    (hword : fname.data.all isWordChar = true)
    (hnotdef : findFunMatch fname.data plugin.dslCode.data = none)
    (hvalid : validTriggerRest fname.data = true) :
    emitTrigger loaded g it ("fun:" ++ fname) data =
      Except.error ("Function " ++ fname ++ " not found") ∧
    ∀ l, emitTrigger loaded g it ("fun:" ++ fname) data ≠ Except.ok l := by
  have hlitF : "fun:".data = ['f', 'u', 'n', ':'] := by decide
  have hlitE : "event:".data = ['e', 'v', 'e', 'n', 't', ':'] := by decide
  have hdata : ("fun:" ++ fname).data = 'f' :: 'u' :: 'n' :: ':' :: fname.data := by
    rw [String.data_append, hlitF]
    rfl
  have hnotevent : ("event:".data.isPrefixOf ("fun:" ++ fname).data) = false := by
    cases hb : ("event:".data.isPrefixOf ("fun:" ++ fname).data) with
    | false => rfl
    | true =>
      exfalso
      rw [List.isPrefixOf_iff_prefix] at hb
      obtain ⟨t, ht⟩ := hb
      rw [hlitE, hdata] at ht
      simp at ht
  have hfunpre : ("fun:".data.isPrefixOf ("fun:" ++ fname).data) = true := by
    rw [List.isPrefixOf_iff_prefix, String.data_append]
    exact List.prefix_append _ _
  have hdrop4 : ("fun:" ++ fname).data.drop 4 = fname.data := by
    rw [hdata]
    rfl
  have hmk : String.mk fname.data = fname := by
    cases fname
    rfl
  have hc1 : ¬("event:".data.isPrefixOf ("fun:" ++ fname).data = true ∧
      validTriggerRest (("fun:" ++ fname).data.drop 6) = true) := by
    rintro ⟨h1, _⟩
    rw [hnotevent] at h1
    exact Bool.false_ne_true h1
  have hc2 : ("fun:".data.isPrefixOf ("fun:" ++ fname).data = true ∧
      validTriggerRest (("fun:" ++ fname).data.drop 4) = true) :=
    ⟨hfunpre, by rw [hdrop4]; exact hvalid⟩
  have hres : emitTrigger loaded g it ("fun:" ++ fname) data =
      Except.error ("Function " ++ fname ++ " not found") := by
    unfold emitTrigger
    rw [if_neg hc1, if_pos hc2, hdrop4, hmk]
    simp only [handleFunctionTrigger, hg, hp, hnotdef]
  exact ⟨hres, fun l hcon => by
    rw [hres] at hcon
    exact Except.noConfusion hcon⟩

/-- A plugin whose source defines no function at all. -/
def noFunPlug : LPlug :=
  { dslCode := "use db.set", commands := [], customEvents := [],
    logicHandlers := [] }

theorem claim_function_trigger_not_found_witness :
    emitTrigger [("g1", [("p1", noFunPlug)])] "g1" "p1" ("fun:" ++ "missingFn") [] =
      Except.error ("Function " ++ "missingFn" ++ " not found") ∧
    ∀ l, emitTrigger [("g1", [("p1", noFunPlug)])] "g1" "p1"
        ("fun:" ++ "missingFn") [] ≠ Except.ok l :=
  claim_function_trigger_not_found [("g1", [("p1", noFunPlug)])] "g1" "p1"
    "missingFn" [] [("p1", noFunPlug)] noFunPlug (by decide) (by decide)
    (by decide) (by decide) (by decide)

/-- A plugin defining `aXb` and nothing else.  The literal text `fun a.b`
never occurs in it, and no DSL function can be named `a.b` (definitions parse
as `fun\s+([\w_]+)`), so a trigger naming `a.b` names an undefined
function. -/
def dottedPlug : LPlug :=
  { dslCode := "fun aXb() \x7bSECRET\x7d", commands := [], customEvents := [],
    logicHandlers := [] }

/-- **C8 counterexample**: the trigger name is interpolated raw into the
lookup regex (line 1543), where a dot matches any character: the trigger
`fun:a.b` — naming a function that is not and cannot be defined — matches the
unrelated definition `fun aXb()` and executes its body, raising no not-found
failure.  This falsifies the claim as stated for names containing regex
metacharacters. -/
theorem claim_function_trigger_not_found_counterexample :
    strContains dottedPlug.dslCode "fun a.b" = false ∧
    emitTrigger [("g1", [("p1", dottedPlug)])] "g1" "p1" "fun:a.b" [] =
      Except.ok ["SECRET"] := by
  constructor
  · decide
  · simp [emitTrigger, handleFunctionTrigger, findFunMatch, matchFunFrom, matchAtoms,
      dropPre, paramNamesOf, splitOnComma, splitOnCommaAux, validTriggerRest,
      extractBlockContent, findOpenIdx, scanClose, sliceChars, trimChars,
      dottedPlug, isWsChar, isWordChar, jsonStr]

end FSX
